import Mathlib

/-!
Verification development for the adaptive radix tree node hierarchy of
adaptive_radix_tree_nodes.cpp: the four internal node shapes (Node4, Node16,
Node48, Node256) and the Leaf, their bulk constructors, and the recursive
lower_bound / upper_bound / begin / end protocol.  Machine bytes are natural
numbers reduced modulo 256 where the code reads a uint8_t; position iterators
are natural numbers; fallible steps (null child dereference, out of bounds
array access, the logic_error throws) are explicit result constructors; and a
fuel parameter makes every loop of the source, including the ones whose exit
condition can never become false, a total function.
-/

namespace ART

/-- Which bound function the caller requested; it selects which member function
the delegated std::function calls on the matched child. -/
inductive BKind where
  | lower
  | upper
deriving DecidableEq

/-- The node hierarchy.  Each shape stores the same arrays as the C++ class:
Node4 and Node16 a sorted partial key array plus a parallel child array (unused
slots hold the sentinel 255 and a null child), Node48 the 256 entry
_index_to_child array plus the compact 48 entry child array, Node256 the direct
256 entry child array, and the leaf its two stored position iterators. -/
inductive Node where
  | leaf (first last : Nat)
  | node4 (pk : List Nat) (ch : List (Option Node))
  | node16 (pk : List Nat) (ch : List (Option Node))
  | node48 (idx : List Nat) (ch : List (Option Node))
  | node256 (ch : List (Option Node))

/-- Result of running a query against a node: a returned iterator, a null
shared_ptr dereference, an out of bounds array access, a thrown logic_error
with its message, or fuel exhaustion (covering the loops of the source that
cannot terminate). -/
inductive QRes where
  | ok (it : Nat)
  | nullderef
  | oob
  | invariant (msg : String)
  | timeout
deriving DecidableEq

/-- The operation being performed on a node: one of the two bound queries, a
begin descent, or an end descent. -/
inductive QMode where
  | query (k : BKind) (key : List Nat) (depth : Nat)
  | bmode
  | emode

/-- One continuation of the abstract machine: either dispatch an operation on a
node, or continue one of the scanning loops of the source with its live state
(the Node4 delegate loop, the Node4 end loop, the Node48 ascending and
descending scans, the Node48 begin cycle, and the Node256 scans and cycles). -/
inductive Job where
  | run (m : QMode) (n : Node)
  | scan4 (k : BKind) (key : List Nat) (depth : Nat) (b : Nat) (self : Node)
      (pks : List Nat) (chs : List (Option Node))
  | end4 (chs : List (Option Node))
  | up48 (self : Node) (idx : List Nat) (chs : List (Option Node)) (i : Nat)
  | down48 (idx : List Nat) (chs : List (Option Node)) (i : Nat)
  | cyc48 (idx : List Nat) (chs : List (Option Node)) (i : Nat)
  | up256 (self : Node) (chs : List (Option Node)) (i : Nat)
  | cyc256b (chs : List (Option Node)) (i : Nat)
  | cyc256e (chs : List (Option Node)) (i : Nat)

/-- Position of the first entry that is not less than b: the result of the
std lower_bound call on the sorted partial key array of Node16. -/
def lbIdx (l : List Nat) (b : Nat) : Nat :=
  match l with
  | [] => 0
  | v :: vs => if v < b then lbIdx vs b + 1 else 0

/-- The abstract machine interpreting the search protocol of
adaptive_radix_tree_nodes.cpp.  Every step consumes one unit of fuel; a result
of timeout for all fuel values denotes a loop of the source that never exits. -/
def interp : Nat → Job → QRes
  | 0, _ => .timeout
  | f+1, .run m n =>
    match n, m with
    | .leaf first _, .query .lower _ _ => .ok first
    | .leaf _ last, .query .upper _ _ => .ok last
    | .leaf first _, .bmode => .ok first
    | .leaf _ last, .emode => .ok last
    | .node4 pk ch, .query k key depth =>
        interp f (.scan4 k key depth (key.getD depth 0 % 256) (.node4 pk ch) pk ch)
    | .node4 _ ch, .bmode =>
        match ch.get? 0 with
        | some (some c) => interp f (.run .bmode c)
        | some none => .nullderef
        | none => .oob
    | .node4 _ ch, .emode => interp f (.end4 ch.reverse)
    | .node16 pk ch, .query k key depth =>
        let b := key.getD depth 0 % 256
        let pos := lbIdx pk b
        match pk.get? pos with
        | none => .oob
        | some v =>
          if v = b then
            match ch.get? pos with
            | some (some c) => interp f (.run (.query k key (depth+1)) c)
            | some none => .nullderef
            | none => .oob
          else if 16 ≤ pos then interp f (.run .emode (.node16 pk ch))
          else
            match ch.get? pos with
            | some (some c) => interp f (.run .bmode c)
            | some none => interp f (.run .emode (.node16 pk ch))
            | none => .oob
    | .node16 _ ch, .bmode =>
        match ch.get? 0 with
        | some (some c) => interp f (.run .bmode c)
        | some none => .nullderef
        | none => .oob
    | .node16 pk ch, .emode =>
        let pos := lbIdx pk 255
        match ch.get? pos with
        | none => .oob
        | some (some c) => interp f (.run .emode c)
        | some none =>
          match pos with
          | 0 => .oob
          | pos'+1 =>
            match ch.get? pos' with
            | some (some c) => interp f (.run .emode c)
            | some none => .nullderef
            | none => .oob
    | .node48 idx ch, .query k key depth =>
        let b := key.getD depth 0 % 256
        let s := idx.getD b 255
        if s = 255 then interp f (.up48 (.node48 idx ch) idx ch (b+1))
        else
          match ch.get? s with
          | some (some c) => interp f (.run (.query k key (depth+1)) c)
          | some none => .nullderef
          | none => .oob
    | .node48 idx ch, .bmode => interp f (.cyc48 idx ch 0)
    | .node48 idx ch, .emode => interp f (.down48 idx ch 255)
    | .node256 ch, .query k key depth =>
        let b := key.getD depth 0 % 256
        match ch.get? b with
        | some (some c) => interp f (.run (.query k key (depth+1)) c)
        | some none => interp f (.up256 (.node256 ch) ch (b+1))
        | none => .oob
    | .node256 ch, .bmode => interp f (.cyc256b ch 0)
    | .node256 ch, .emode => interp f (.cyc256e ch 255)
  | f+1, .scan4 k key depth b self pks chs =>
    match pks, chs with
    | [], _ => interp f (.run .emode self)
    | _ :: _, [] => .oob
    | v :: vs, copt :: cs =>
      if v < b then interp f (.scan4 k key depth b self vs cs)
      else if v = b then
        match copt with
        | some c => interp f (.run (.query k key (depth+1)) c)
        | none => .nullderef
      else
        match copt with
        | none => interp f (.run .emode self)
        | some c => interp f (.run .bmode c)
  | f+1, .end4 chs =>
    match chs with
    | [] => .invariant "Empty _children array in Node4 should never happen"
    | some c :: _ => interp f (.run .emode c)
    | none :: rest => interp f (.end4 rest)
  | f+1, .up48 self idx chs i =>
    if i < 256 then
      let s := idx.getD i 255
      if s = 255 then interp f (.up48 self idx chs (i+1))
      else
        match chs.get? s with
        | some (some c) => interp f (.run .bmode c)
        | some none => .nullderef
        | none => .oob
    else interp f (.run .emode self)
  | f+1, .down48 idx chs i =>
    match i with
    | 0 => .invariant "Empty _index_to_child array in Node48 should never happen"
    | i'+1 =>
      let s := idx.getD (i'+1) 255
      if s = 255 then interp f (.down48 idx chs i')
      else
        match chs.get? s with
        | some (some c) => interp f (.run .bmode c)
        | some none => .nullderef
        | none => .oob
  | f+1, .cyc48 idx chs i =>
    let s := idx.getD (i % 256) 255
    if s = 255 then interp f (.cyc48 idx chs ((i+1) % 256))
    else
      match chs.get? s with
      | some (some c) => interp f (.run .bmode c)
      | some none => .nullderef
      | none => .oob
  | f+1, .up256 self chs i =>
    if i < 256 then
      match chs.get? i with
      | some (some c) => interp f (.run .bmode c)
      | some none => interp f (.up256 self chs (i+1))
      | none => .oob
    else interp f (.run .emode self)
  | f+1, .cyc256b chs i =>
    match chs.get? (i % 256) with
    | some (some c) => interp f (.run .bmode c)
    | some none => interp f (.cyc256b chs ((i+1) % 256))
    | none => .oob
  | f+1, .cyc256e chs i =>
    match chs.get? (i % 256) with
    | some (some c) => interp f (.run .bmode c)
    | some none => interp f (.cyc256e chs ((i + 255) % 256))
    | none => .oob

/-- Node::lower_bound at the given node: first position whose key is at least
the query key. -/
def lower_bound (fuel : Nat) (n : Node) (key : List Nat) (depth : Nat) : QRes :=
  interp fuel (.run (.query .lower key depth) n)

/-- Node::upper_bound at the given node: first position whose key is greater
than the query key. -/
def upper_bound (fuel : Nat) (n : Node) (key : List Nat) (depth : Nat) : QRes :=
  interp fuel (.run (.query .upper key depth) n)

/-- Node::begin: leftmost position reachable under the subtree. -/
def beginOp (fuel : Nat) (n : Node) : QRes :=
  interp fuel (.run .bmode n)

/-- Node::end: one past the rightmost position reachable under the subtree. -/
def endOp (fuel : Nat) (n : Node) : QRes :=
  interp fuel (.run .emode n)

/-- Stable insertion into a list sorted by the partial key component; building
block of the sort performed by the Node4 and Node16 constructors. -/
def insertByFst (p : Nat × Node) : List (Nat × Node) → List (Nat × Node)
  | [] => [p]
  | q :: qs => if p.1 < q.1 then p :: q :: qs else q :: insertByFst p qs

/-- The std sort call of the Node4 and Node16 constructors: the children pairs
ordered ascending by partial key (for distinct partial keys the result order is
uniquely determined). -/
def sortByFst : List (Nat × Node) → List (Nat × Node)
  | [] => []
  | p :: ps => insertByFst p (sortByFst ps)

/-- Fill an array of the given capacity: the used prefix followed by the
default value (the sentinel 255, or a null child). -/
def padTo (n : Nat) (a : α) (l : List α) : List α :=
  l ++ List.replicate (n - l.length) a

/-- The Node4 constructor: sort the pairs by partial key, fill the two length
four arrays left to right, pad the rest with sentinel and null. -/
def mkNode4 (children : List (Nat × Node)) : Node :=
  .node4 (padTo 4 255 ((sortByFst children).map Prod.fst))
         (padTo 4 none ((sortByFst children).map (fun p => some p.2)))

/-- The Node16 constructor, identical to Node4 scaled to sixteen slots. -/
def mkNode16 (children : List (Nat × Node)) : Node :=
  .node16 (padTo 16 255 ((sortByFst children).map Prod.fst))
          (padTo 16 none ((sortByFst children).map (fun p => some p.2)))

/-- The construction loop of Node48: record each pair position in the byte
indexed _index_to_child array, slots assigned in input order. -/
def writeIdx (acc : List Nat) : List (Nat × Node) → Nat → List Nat
  | [], _ => acc
  | p :: ps, j => writeIdx (acc.set p.1 j) ps (j+1)

/-- The _index_to_child array a Node48 is built with. -/
def idxOf48 (children : List (Nat × Node)) : List Nat :=
  writeIdx (List.replicate 256 255) children 0

/-- The compact child array a Node48 is built with: the children in input
order, padded to the 48 slot capacity with null. -/
def chsOf48 (children : List (Nat × Node)) : List (Option Node) :=
  padTo 48 none (children.map (fun p => some p.2))

/-- The Node48 constructor. -/
def mkNode48 (children : List (Nat × Node)) : Node :=
  .node48 (idxOf48 children) (chsOf48 children)

/-- The construction loop of Node256: direct assignment of each child into the
slot named by its partial key. -/
def writeCh (acc : List (Option Node)) : List (Nat × Node) → List (Option Node)
  | [] => acc
  | p :: ps => writeCh (acc.set p.1 (some p.2)) ps

/-- The direct address child array a Node256 is built with. -/
def chsOf256 (children : List (Nat × Node)) : List (Option Node) :=
  writeCh (List.replicate 256 none) children

/-- The Node256 constructor. -/
def mkNode256 (children : List (Nat × Node)) : Node :=
  .node256 (chsOf256 children)

/-- Keep the first occurrence of each byte, preserving order of appearance;
helper of the spec modelled bulk load driver. -/
def uniqAux (seen : List Nat) : List Nat → List Nat
  | [] => []
  | b :: bs => if b ∈ seen then uniqAux seen bs else b :: uniqAux (b :: seen) bs

/-- The distinct bytes of a list, first occurrences kept in order. -/
def uniqFirst (l : List Nat) : List Nat :=
  uniqAux [] l

/-- Modelled from the spec: the shape selection of the external bulk load
driver, absent from the sources here; a child set of at most 4 becomes a
Node4, at most 16 a Node16, at most 48 a Node48, else a Node256. -/
def mkShape (children : List (Nat × Node)) : Node :=
  if children.length ≤ 4 then mkNode4 children
  else if children.length ≤ 16 then mkNode16 children
  else if children.length ≤ 48 then mkNode48 children
  else mkNode256 children

/-- Modelled from the spec: the recursive bulk load of the external driver,
absent from the sources here.  Entries are pairs of a fixed width byte key and
the contiguous position range of that key; a single remaining distinct key
becomes a Leaf, otherwise the entries are grouped by the key byte at the
current depth, subtrees are built bottom up per group, and a node shape is
chosen by the group count.  The gas argument is the number of key bytes not
yet consumed. -/
def buildARTAux : Nat → List (List Nat × Nat × Nat) → Nat → Node
  | _, [], _ => .leaf 0 0
  | _, [(_, b, e)], _ => .leaf b e
  | 0, (_, b, e) :: _, _ => .leaf b e
  | gas+1, entries, depth =>
      let bytes := uniqFirst (entries.map (fun p => p.1.getD depth 0 % 256))
      mkShape (bytes.map (fun b =>
        (b, buildARTAux gas (entries.filter (fun p => p.1.getD depth 0 % 256 = b)) (depth+1))))

/-- Modelled from the spec: bulk build of a whole tree from sorted distinct
keys of the given fixed length, each with its contiguous position range. -/
def buildART (keyLen : Nat) (entries : List (List Nat × Nat × Nat)) : Node :=
  buildARTAux keyLen entries 0

/-- The seventeen pair child set with partial keys 239 to 255, child j a leaf
over positions 10 j to 10 j + 10; seventeen children force the Node48 shape. -/
def pairs17 : List (Nat × Node) :=
  (List.range 17).map (fun j => (239 + j, Node.leaf (10 * j) (10 * j + 10)))

/-- Seventeen single byte keys 239 to 255 with adjacent position ranges, the
bulk build input whose tree is a Node48 root over seventeen leaves. -/
def entries17 : List (List Nat × Nat × Nat) :=
  (List.range 17).map (fun j => ([239 + j], (10 * j, 10 * j + 10)))

/-- Three two byte keys with adjacent position ranges; under the first byte 1
the driver builds a two child Node4 with partial keys 5 and 7. -/
def entries3 : List (List Nat × Nat × Nat) :=
  [([1, 5], (0, 10)), ([1, 7], (10, 20)), ([2, 0], (20, 30))]

/-- The full sixteen child set with partial keys 0 to 15, all below the query
byte used against it; child j a leaf over positions 10 j to 10 j + 10. -/
def pairs16 : List (Nat × Node) :=
  (List.range 16).map (fun j => (j, Node.leaf (10 * j) (10 * j + 10)))

/-- Predicate picking the child pair carrying the given partial key. -/
def keyIs (i : Nat) : Nat × Node → Bool :=
  fun p => p.1 == i

/-- Comparison on the partial key components, the order the Node4 and Node16
constructors sort by. -/
def fstLE (a b : Nat × Node) : Prop :=
  a.1 ≤ b.1

/-- Strict comparison on the partial key components. -/
def fstLT (a b : Nat × Node) : Prop :=
  a.1 < b.1

/-- Pairs of machine continuations that agree except for replacing the Node48
built from one child list by the Node48 built from another list (intended: a
permutation of the first); used to prove that Node48 query results do not
depend on the construction input order. -/
inductive Rel48 (l1 l2 : List (Nat × Node)) : Job → Job → Prop where
  | same (t : Job) : Rel48 l1 l2 t t
  | run (m : QMode) : Rel48 l1 l2 (.run m (mkNode48 l1)) (.run m (mkNode48 l2))
  | up (i : Nat) : Rel48 l1 l2
      (.up48 (mkNode48 l1) (idxOf48 l1) (chsOf48 l1) i)
      (.up48 (mkNode48 l2) (idxOf48 l2) (chsOf48 l2) i)
  | down (i : Nat) : Rel48 l1 l2
      (.down48 (idxOf48 l1) (chsOf48 l1) i)
      (.down48 (idxOf48 l2) (chsOf48 l2) i)
  | cyc (i : Nat) : Rel48 l1 l2
      (.cyc48 (idxOf48 l1) (chsOf48 l1) i)
      (.cyc48 (idxOf48 l2) (chsOf48 l2) i)

instance : IsAntisymm (Nat × Node) fstLT :=
  ⟨fun _ _ h1 h2 => absurd h1 (Nat.lt_asymm h2)⟩

theorem insertByFst_perm (p : Nat × Node) (l : List (Nat × Node)) :
    (insertByFst p l).Perm (p :: l) := by
  induction l with
  | nil => exact List.Perm.refl _
  | cons q qs ih =>
      unfold insertByFst
      by_cases h : p.1 < q.1
      · rw [if_pos h]
      · rw [if_neg h]
        exact (ih.cons q).trans (List.Perm.swap p q qs)

theorem sortByFst_perm (l : List (Nat × Node)) : (sortByFst l).Perm l := by
  induction l with
  | nil => exact List.Perm.refl _
  | cons p ps ih => exact (insertByFst_perm p (sortByFst ps)).trans (ih.cons p)

theorem insertByFst_pairwise (p : Nat × Node) (l : List (Nat × Node))
    (h : List.Pairwise fstLE l) : List.Pairwise fstLE (insertByFst p l) := by
  induction l with
  | nil => simp [insertByFst, fstLE]
  | cons q qs ih =>
      rw [List.pairwise_cons] at h
      unfold insertByFst
      by_cases hpq : p.1 < q.1
      · rw [if_pos hpq, List.pairwise_cons]
        refine ⟨?_, List.pairwise_cons.mpr ⟨h.1, h.2⟩⟩
        intro x hx
        rcases List.mem_cons.mp hx with h1 | h2
        · subst h1; exact Nat.le_of_lt hpq
        · exact Nat.le_trans (Nat.le_of_lt hpq) (h.1 x h2)
      · rw [if_neg hpq, List.pairwise_cons]
        refine ⟨?_, ih h.2⟩
        intro x hx
        rcases List.mem_cons.mp ((insertByFst_perm p qs).mem_iff.mp hx) with h1 | h2
        · subst h1; exact Nat.le_of_not_lt hpq
        · exact h.1 x h2

theorem sortByFst_pairwise (l : List (Nat × Node)) :
    List.Pairwise fstLE (sortByFst l) := by
  induction l with
  | nil => exact List.Pairwise.nil
  | cons p ps ih => exact insertByFst_pairwise p _ ih

theorem sortByFst_pairwise_lt (l : List (Nat × Node)) (hl : (l.map Prod.fst).Nodup) :
    List.Pairwise fstLT (sortByFst l) := by
  have h2 : ((sortByFst l).map Prod.fst).Nodup :=
    (((sortByFst_perm l).map Prod.fst).nodup_iff).mpr hl
  have h3 : List.Pairwise (fun a b : Nat × Node => a.1 ≠ b.1) (sortByFst l) :=
    List.pairwise_map.mp h2
  exact ((sortByFst_pairwise l).and h3).imp (fun h => Nat.lt_of_le_of_ne h.1 h.2)

theorem sortByFst_eq_of_perm (l1 l2 : List (Nat × Node)) (hp : l1.Perm l2)
    (hnd : (l1.map Prod.fst).Nodup) : sortByFst l1 = sortByFst l2 := by
  have hperm : (sortByFst l1).Perm (sortByFst l2) :=
    (sortByFst_perm l1).trans (hp.trans (sortByFst_perm l2).symm)
  have hnd2 : (l2.map Prod.fst).Nodup := ((hp.map Prod.fst).nodup_iff).mp hnd
  exact List.eq_of_perm_of_sorted hperm (sortByFst_pairwise_lt l1 hnd)
    (sortByFst_pairwise_lt l2 hnd2)

theorem mkNode4_eq_of_perm (l1 l2 : List (Nat × Node)) (hp : l1.Perm l2)
    (hnd : (l1.map Prod.fst).Nodup) : mkNode4 l1 = mkNode4 l2 := by
  unfold mkNode4
  rw [sortByFst_eq_of_perm l1 l2 hp hnd]

theorem mkNode16_eq_of_perm (l1 l2 : List (Nat × Node)) (hp : l1.Perm l2)
    (hnd : (l1.map Prod.fst).Nodup) : mkNode16 l1 = mkNode16 l2 := by
  unfold mkNode16
  rw [sortByFst_eq_of_perm l1 l2 hp hnd]

theorem keyIs_eq {i : Nat} {p : Nat × Node} (h : keyIs i p = true) : p.1 = i := by
  simpa [keyIs] using h

theorem keyIs_of_eq {i : Nat} {p : Nat × Node} (h : p.1 = i) : keyIs i p = true := by
  simp [keyIs, h]

theorem eq_of_fst_eq (l : List (Nat × Node)) (hnd : (l.map Prod.fst).Nodup)
    {p q : Nat × Node} (hp : p ∈ l) (hq : q ∈ l) (h : p.1 = q.1) : p = q := by
  induction l with
  | nil => cases hp
  | cons a t ih =>
      rw [List.map_cons, List.nodup_cons] at hnd
      rcases List.mem_cons.mp hp with rfl | hpt
      · rcases List.mem_cons.mp hq with rfl | hqt
        · rfl
        · exact absurd (by rw [h]; exact List.mem_map_of_mem Prod.fst hqt) hnd.1
      · rcases List.mem_cons.mp hq with rfl | hqt
        · exact absurd (by rw [← h]; exact List.mem_map_of_mem Prod.fst hpt) hnd.1
        · exact ih hnd.2 hpt hqt

theorem find?_perm_of_nodup (l1 l2 : List (Nat × Node)) (hp : l1.Perm l2)
    (hnd : (l1.map Prod.fst).Nodup) (i : Nat) :
    l1.find? (keyIs i) = l2.find? (keyIs i) := by
  cases h1 : l1.find? (keyIs i) with
  | none =>
      rw [List.find?_eq_none] at h1
      symm
      rw [List.find?_eq_none]
      intro x hx
      exact h1 x (hp.mem_iff.mpr hx)
  | some p =>
      have hmem : p ∈ l2 := hp.mem_iff.mp (List.mem_of_find?_eq_some h1)
      have hkey : keyIs i p = true := List.find?_some h1
      cases h2 : l2.find? (keyIs i) with
      | none =>
          rw [List.find?_eq_none] at h2
          exact absurd hkey (h2 p hmem)
      | some q =>
          have hqmem : q ∈ l1 := hp.mem_iff.mpr (List.mem_of_find?_eq_some h2)
          have hqkey : q.1 = p.1 :=
            (keyIs_eq (List.find?_some h2)).trans (keyIs_eq hkey).symm
          rw [eq_of_fst_eq l1 hnd hqmem (List.mem_of_find?_eq_some h1) hqkey]

theorem get?_replicate_of_lt {α : Type} (a : α) {n i : Nat} (h : i < n) :
    (List.replicate n a).get? i = some a := by
  rw [List.get?_eq_getElem?, List.getElem?_replicate, if_pos h]

theorem getD_of_get? {α : Type} {l : List α} {i : Nat} {v : α} (d : α)
    (h : l.get? i = some v) : l.getD i d = v := by
  rw [List.getD_eq_getElem?_getD, ← List.get?_eq_getElem?, h]
  rfl

theorem getD_of_oob {α : Type} {l : List α} {i : Nat} (d : α) (h : l.length ≤ i) :
    l.getD i d = d := by
  rw [List.getD_eq_getElem?_getD, List.getElem?_eq_none h]
  rfl

theorem writeCh_get?_not_mem (acc : List (Option Node)) (l : List (Nat × Node))
    (i : Nat) (h : ∀ p ∈ l, p.1 ≠ i) : (writeCh acc l).get? i = acc.get? i := by
  induction l generalizing acc with
  | nil => rfl
  | cons p ps ih =>
      simp only [writeCh]
      rw [ih _ (fun q hq => h q (List.mem_cons_of_mem p hq)),
        List.get?_set_ne _ _ (h p (List.mem_cons_self p ps))]

theorem writeCh_get? (l : List (Nat × Node)) (acc : List (Option Node)) (i : Nat)
    (hnd : (l.map Prod.fst).Nodup) (hb : ∀ p ∈ l, p.1 < acc.length) :
    (writeCh acc l).get? i =
      (match l.find? (keyIs i) with
       | some p => some (some p.2)
       | none => acc.get? i) := by
  induction l generalizing acc with
  | nil => rfl
  | cons p ps ih =>
      rw [List.map_cons, List.nodup_cons] at hnd
      simp only [writeCh]
      by_cases hpi : p.1 = i
      · have hfind : (p :: ps).find? (keyIs i) = some p := by
          rw [List.find?_cons, keyIs_of_eq hpi]
        rw [hfind]
        have hnone : ∀ q ∈ ps, q.1 ≠ i := by
          intro q hq hqi
          exact hnd.1 (by rw [hpi, ← hqi]; exact List.mem_map_of_mem Prod.fst hq)
        rw [writeCh_get?_not_mem _ _ _ hnone, ← hpi,
          List.get?_set_eq_of_lt _ (hb p (List.mem_cons_self p ps))]
      · have hfalse : keyIs i p = false := by
          simp [keyIs, hpi]
        have hfind : (p :: ps).find? (keyIs i) = ps.find? (keyIs i) := by
          rw [List.find?_cons, hfalse]
        rw [hfind, ih _ hnd.2 (fun q hq => by
          rw [List.length_set]; exact hb q (List.mem_cons_of_mem p hq))]
        cases hps : ps.find? (keyIs i) with
        | some q => rfl
        | none => simp only [List.get?_set_ne _ _ hpi]

theorem chsOf256_eq_of_perm (l1 l2 : List (Nat × Node)) (hp : l1.Perm l2)
    (hnd : (l1.map Prod.fst).Nodup) (hb : ∀ p ∈ l1, p.1 < 256) :
    chsOf256 l1 = chsOf256 l2 := by
  have hnd2 : (l2.map Prod.fst).Nodup := ((hp.map Prod.fst).nodup_iff).mp hnd
  have hb2 : ∀ p ∈ l2, p.1 < 256 := fun p hp2 => hb p (hp.mem_iff.mpr hp2)
  apply List.ext
  intro i
  unfold chsOf256
  rw [writeCh_get? l1 _ i hnd (by simp only [List.length_replicate]; exact hb),
    writeCh_get? l2 _ i hnd2 (by simp only [List.length_replicate]; exact hb2),
    find?_perm_of_nodup l1 l2 hp hnd i]

theorem mkNode256_eq_of_perm (l1 l2 : List (Nat × Node)) (hp : l1.Perm l2)
    (hnd : (l1.map Prod.fst).Nodup) (hb : ∀ p ∈ l1, p.1 < 256) :
    mkNode256 l1 = mkNode256 l2 := by
  unfold mkNode256
  rw [chsOf256_eq_of_perm l1 l2 hp hnd hb]

theorem writeIdx_length (l : List (Nat × Node)) (acc : List Nat) (j : Nat) :
    (writeIdx acc l j).length = acc.length := by
  induction l generalizing acc j with
  | nil => rfl
  | cons p ps ih =>
      simp only [writeIdx]
      rw [ih, List.length_set]

theorem writeIdx_get?_not_mem (acc : List Nat) (l : List (Nat × Node)) (j i : Nat)
    (h : ∀ p ∈ l, p.1 ≠ i) : (writeIdx acc l j).get? i = acc.get? i := by
  induction l generalizing acc j with
  | nil => rfl
  | cons p ps ih =>
      simp only [writeIdx]
      rw [ih _ _ (fun q hq => h q (List.mem_cons_of_mem p hq)),
        List.get?_set_ne _ _ (h p (List.mem_cons_self p ps))]

theorem writeIdx_get?_at (l : List (Nat × Node)) (acc : List Nat) (j m : Nat)
    (p : Nat × Node) (hnd : (l.map Prod.fst).Nodup) (hm : l.get? m = some p)
    (hb : ∀ q ∈ l, q.1 < acc.length) :
    (writeIdx acc l j).get? p.1 = some (j + m) := by
  induction l generalizing acc j m with
  | nil => cases hm
  | cons a t ih =>
      rw [List.map_cons, List.nodup_cons] at hnd
      cases m with
      | zero =>
          rw [List.get?_cons_zero] at hm
          injection hm with hm2
          simp only [writeIdx]
          rw [← hm2]
          have hnone : ∀ q ∈ t, q.1 ≠ a.1 := by
            intro q hq hqp
            exact hnd.1 (by rw [← hqp]; exact List.mem_map_of_mem Prod.fst hq)
          rw [writeIdx_get?_not_mem _ _ _ _ hnone,
            List.get?_set_eq_of_lt _ (hb a (List.mem_cons_self a t))]
          exact congrArg some (by omega)
      | succ m' =>
          rw [List.get?_cons_succ] at hm
          simp only [writeIdx]
          rw [ih _ _ _ hnd.2 hm (fun q hq => by
            rw [List.length_set]; exact hb q (List.mem_cons_of_mem a hq))]
          exact congrArg some (by omega)

theorem node48_access (l : List (Nat × Node)) (hnd : (l.map Prod.fst).Nodup)
    (hb : ∀ p ∈ l, p.1 < 256) (hlen : l.length ≤ 48) (b : Nat) (hb256 : b < 256) :
    (l.find? (keyIs b) = none ∧ (idxOf48 l).getD b 255 = 255)
    ∨ ∃ p m, l.find? (keyIs b) = some p ∧ (idxOf48 l).getD b 255 = m ∧ m ≠ 255 ∧
        (chsOf48 l).get? m = some (some p.2) := by
  cases hf : l.find? (keyIs b) with
  | none =>
      left
      refine ⟨rfl, ?_⟩
      have h1 : ∀ p ∈ l, p.1 ≠ b := by
        rw [List.find?_eq_none] at hf
        intro p hp hpb
        exact hf p hp (keyIs_of_eq hpb)
      unfold idxOf48
      exact getD_of_get? 255 (by
        rw [writeIdx_get?_not_mem _ _ _ _ h1]
        exact get?_replicate_of_lt _ hb256)
  | some p =>
      right
      have hpb : p.1 = b := keyIs_eq (List.find?_some hf)
      have hpm : p ∈ l := List.mem_of_find?_eq_some hf
      obtain ⟨m, hm⟩ := List.mem_iff_get?.mp hpm
      have hmlen : m < l.length := by
        rcases List.get?_eq_some.mp hm with ⟨h, _⟩
        exact h
      refine ⟨p, m, rfl, ?_, by omega, ?_⟩
      · unfold idxOf48
        have h0 := writeIdx_get?_at l (List.replicate 256 255) 0 m p hnd hm
          (by simp only [List.length_replicate]; exact hb)
        rw [hpb, Nat.zero_add] at h0
        exact getD_of_get? 255 h0
      · unfold chsOf48 padTo
        rw [List.get?_append (by rw [List.length_map]; exact hmlen),
          List.get?_map, hm]
        rfl

theorem idxOf48_getD_oob (l : List (Nat × Node)) (i : Nat) (h : 256 ≤ i) :
    (idxOf48 l).getD i 255 = 255 :=
  getD_of_oob 255 (by
    unfold idxOf48
    rw [writeIdx_length, List.length_replicate]
    exact h)

theorem step_run_q48 (f : Nat) (k : BKind) (key : List Nat) (depth : Nat)
    (idx : List Nat) (ch : List (Option Node)) :
    interp (f+1) (.run (.query k key depth) (.node48 idx ch)) =
      (if idx.getD (key.getD depth 0 % 256) 255 = 255 then
         interp f (.up48 (.node48 idx ch) idx ch (key.getD depth 0 % 256 + 1))
       else match ch.get? (idx.getD (key.getD depth 0 % 256) 255) with
         | some (some c) => interp f (.run (.query k key (depth+1)) c)
         | some none => .nullderef
         | none => .oob) := rfl

theorem step_run_b48 (f : Nat) (idx : List Nat) (ch : List (Option Node)) :
    interp (f+1) (.run .bmode (.node48 idx ch)) = interp f (.cyc48 idx ch 0) := rfl

theorem step_run_e48 (f : Nat) (idx : List Nat) (ch : List (Option Node)) :
    interp (f+1) (.run .emode (.node48 idx ch)) = interp f (.down48 idx ch 255) := rfl

theorem step_up48 (f : Nat) (self : Node) (idx : List Nat)
    (chs : List (Option Node)) (i : Nat) :
    interp (f+1) (.up48 self idx chs i) =
      (if i < 256 then
         if idx.getD i 255 = 255 then interp f (.up48 self idx chs (i+1))
         else match chs.get? (idx.getD i 255) with
           | some (some c) => interp f (.run .bmode c)
           | some none => .nullderef
           | none => .oob
       else interp f (.run .emode self)) := rfl

theorem step_down48 (f : Nat) (idx : List Nat) (chs : List (Option Node)) (i : Nat) :
    interp (f+1) (.down48 idx chs (i+1)) =
      (if idx.getD (i+1) 255 = 255 then interp f (.down48 idx chs i)
       else match chs.get? (idx.getD (i+1) 255) with
         | some (some c) => interp f (.run .bmode c)
         | some none => .nullderef
         | none => .oob) := rfl

theorem step_cyc48 (f : Nat) (idx : List Nat) (chs : List (Option Node)) (i : Nat) :
    interp (f+1) (.cyc48 idx chs i) =
      (if idx.getD (i % 256) 255 = 255 then interp f (.cyc48 idx chs ((i+1) % 256))
       else match chs.get? (idx.getD (i % 256) 255) with
         | some (some c) => interp f (.run .bmode c)
         | some none => .nullderef
         | none => .oob) := rfl

theorem mkNode48_node48 (l : List (Nat × Node)) :
    mkNode48 l = .node48 (idxOf48 l) (chsOf48 l) := rfl

theorem interp_rel48 (l1 l2 : List (Nat × Node)) (hp : l1.Perm l2)
    (hnd : (l1.map Prod.fst).Nodup) (hb : ∀ p ∈ l1, p.1 < 256)
    (hlen : l1.length ≤ 48) :
    ∀ f t1 t2, Rel48 l1 l2 t1 t2 → interp f t1 = interp f t2 := by
  have hnd2 : (l2.map Prod.fst).Nodup := ((hp.map Prod.fst).nodup_iff).mp hnd
  have hb2 : ∀ p ∈ l2, p.1 < 256 := fun p h => hb p (hp.mem_iff.mpr h)
  have hlen2 : l2.length ≤ 48 := hp.length_eq ▸ hlen
  have hfind : ∀ i, l1.find? (keyIs i) = l2.find? (keyIs i) :=
    fun i => find?_perm_of_nodup l1 l2 hp hnd i
  have hacc : ∀ b, b < 256 →
      ((idxOf48 l1).getD b 255 = 255 ∧ (idxOf48 l2).getD b 255 = 255)
      ∨ ∃ (p : Nat × Node) (m1 m2 : Nat), (idxOf48 l1).getD b 255 = m1 ∧ m1 ≠ 255 ∧
          (chsOf48 l1).get? m1 = some (some p.2) ∧
          (idxOf48 l2).getD b 255 = m2 ∧ m2 ≠ 255 ∧
          (chsOf48 l2).get? m2 = some (some p.2) := by
    intro b hb256
    rcases node48_access l1 hnd hb hlen b hb256 with ⟨hf1, hi1⟩ | ⟨p, m, hf1, hi1, hm1, hc1⟩
    · rcases node48_access l2 hnd2 hb2 hlen2 b hb256 with ⟨hf2, hi2⟩ | ⟨q, m2, hf2, hi2, hm2, hc2⟩
      · exact Or.inl ⟨hi1, hi2⟩
      · rw [hfind b, hf2] at hf1
        exact absurd hf1 (Option.some_ne_none _)
    · rcases node48_access l2 hnd2 hb2 hlen2 b hb256 with ⟨hf2, hi2⟩ | ⟨q, m2, hf2, hi2, hm2, hc2⟩
      · rw [hfind b, hf2] at hf1
        exact absurd hf1.symm (Option.some_ne_none _)
      · have hpq : some p = some q := by rw [← hf1, ← hf2]; exact hfind b
        injection hpq with hpq
        subst hpq
        exact Or.inr ⟨p, m, m2, hi1, hm1, hc1, hi2, hm2, hc2⟩
  intro f
  induction f with
  | zero =>
      intro t1 t2 _
      rfl
  | succ f ih =>
      intro t1 t2 hrel
      cases hrel with
      | same t => rfl
      | run m =>
          cases m with
          | bmode =>
              rw [mkNode48_node48, mkNode48_node48, step_run_b48, step_run_b48]
              exact ih _ _ (Rel48.cyc 0)
          | emode =>
              rw [mkNode48_node48, mkNode48_node48, step_run_e48, step_run_e48]
              exact ih _ _ (Rel48.down 255)
          | query k key depth =>
              rw [mkNode48_node48, mkNode48_node48, step_run_q48, step_run_q48]
              rcases hacc (key.getD depth 0 % 256) (Nat.mod_lt _ (by omega)) with
                ⟨hi1, hi2⟩ | ⟨p, m1, m2, hi1, hm1, hc1, hi2, hm2, hc2⟩
              · rw [hi1, hi2, if_pos rfl, if_pos rfl]
                exact ih _ _ (Rel48.up (key.getD depth 0 % 256 + 1))
              · rw [hi1, hi2, if_neg hm1, if_neg hm2, hc1, hc2]
      | up i =>
          rw [step_up48, step_up48]
          by_cases hi : i < 256
          · rw [if_pos hi, if_pos hi]
            rcases hacc i hi with ⟨hi1, hi2⟩ | ⟨p, m1, m2, hi1, hm1, hc1, hi2, hm2, hc2⟩
            · rw [hi1, hi2, if_pos rfl, if_pos rfl]
              exact ih _ _ (Rel48.up (i+1))
            · rw [hi1, hi2, if_neg hm1, if_neg hm2, hc1, hc2]
          · rw [if_neg hi, if_neg hi]
            exact ih _ _ (Rel48.run .emode)
      | down i =>
          cases i with
          | zero => rfl
          | succ j =>
              rw [step_down48, step_down48]
              by_cases hi : j + 1 < 256
              · rcases hacc (j+1) hi with ⟨hi1, hi2⟩ | ⟨p, m1, m2, hi1, hm1, hc1, hi2, hm2, hc2⟩
                · rw [hi1, hi2, if_pos rfl, if_pos rfl]
                  exact ih _ _ (Rel48.down j)
                · rw [hi1, hi2, if_neg hm1, if_neg hm2, hc1, hc2]
              · have h1 : (idxOf48 l1).getD (j+1) 255 = 255 := idxOf48_getD_oob _ _ (by omega)
                have h2 : (idxOf48 l2).getD (j+1) 255 = 255 := idxOf48_getD_oob _ _ (by omega)
                rw [h1, h2, if_pos rfl, if_pos rfl]
                exact ih _ _ (Rel48.down j)
      | cyc i =>
          rw [step_cyc48, step_cyc48]
          rcases hacc (i % 256) (Nat.mod_lt _ (by omega)) with
            ⟨hi1, hi2⟩ | ⟨p, m1, m2, hi1, hm1, hc1, hi2, hm2, hc2⟩
          · rw [hi1, hi2, if_pos rfl, if_pos rfl]
            exact ih _ _ (Rel48.cyc ((i+1) % 256))
          · rw [hi1, hi2, if_neg hm1, if_neg hm2, hc1, hc2]

theorem step_cyc256b (f : Nat) (chs : List (Option Node)) (i : Nat) :
    interp (f+1) (.cyc256b chs i) =
      (match chs.get? (i % 256) with
       | some (some c) => interp f (.run .bmode c)
       | some none => interp f (.cyc256b chs ((i+1) % 256))
       | none => .oob) := rfl

theorem step_cyc256e (f : Nat) (chs : List (Option Node)) (i : Nat) :
    interp (f+1) (.cyc256e chs i) =
      (match chs.get? (i % 256) with
       | some (some c) => interp f (.run .bmode c)
       | some none => interp f (.cyc256e chs ((i + 255) % 256))
       | none => .oob) := rfl

theorem cyc48_empty (f : Nat) : ∀ i : Nat,
    interp f (.cyc48 (List.replicate 256 255) (List.replicate 48 none) i) = .timeout := by
  induction f with
  | zero => intro i; rfl
  | succ f ih =>
      intro i
      rw [step_cyc48,
        getD_of_get? 255 (get?_replicate_of_lt 255 (Nat.mod_lt _ (by omega))),
        if_pos rfl]
      exact ih _

theorem cyc256b_empty (f : Nat) : ∀ i : Nat,
    interp f (.cyc256b (List.replicate 256 none) i) = .timeout := by
  induction f with
  | zero => intro i; rfl
  | succ f ih =>
      intro i
      rw [step_cyc256b, get?_replicate_of_lt none (Nat.mod_lt _ (by omega))]
      exact ih _

theorem cyc256e_empty (f : Nat) : ∀ i : Nat,
    interp f (.cyc256e (List.replicate 256 none) i) = .timeout := by
  induction f with
  | zero => intro i; rfl
  | succ f ih =>
      intro i
      rw [step_cyc256e, get?_replicate_of_lt none (Nat.mod_lt _ (by omega))]
      exact ih _

theorem begin48_empty (fuel : Nat) : beginOp fuel (mkNode48 []) = .timeout := by
  cases fuel with
  | zero => rfl
  | succ f => exact cyc48_empty f 0

theorem begin256_empty (fuel : Nat) : beginOp fuel (mkNode256 []) = .timeout := by
  cases fuel with
  | zero => rfl
  | succ f => exact cyc256b_empty f 0

/-- Claim C1 is violated by the code: on a Node48 (and likewise a Node256)
whose rightmost present child is the leaf over positions 10 to 20, end()
returns 10, the result of calling begin() on that child, although the child's
own end() is 20; Node4 does propagate through the child's end().  The claim
that every internal shape's end() resolves to the rightmost child's end() is
therefore false for Node48 and Node256. -/
theorem c1_node48_node256_end_call_begin :
    endOp 40 (mkNode48 [(250, Node.leaf 10 20)]) = .ok 10 ∧
    endOp 40 (mkNode256 [(250, Node.leaf 10 20)]) = .ok 10 ∧
    endOp 40 (Node.leaf 10 20) = .ok 20 ∧
    endOp 40 (mkNode4 [(250, Node.leaf 10 20)]) = .ok 20 := by
  decide

/-- Claim C2 is violated by the code: the same single pair child set, the leaf
over positions 10 to 20 at partial key 249, built as each of the four shapes
gives lower_bound results 20, 20, 10, 10 for query byte 250 and end() results
20, 20, 10, 10, so the node shape is observable in query semantics (a
consequence of the Node48 and Node256 end() slip). -/
theorem c2_shape_is_observable :
    lower_bound 40 (mkNode4 [(249, Node.leaf 10 20)]) [250] 0 = .ok 20 ∧
    lower_bound 40 (mkNode16 [(249, Node.leaf 10 20)]) [250] 0 = .ok 20 ∧
    lower_bound 40 (mkNode48 [(249, Node.leaf 10 20)]) [250] 0 = .ok 10 ∧
    lower_bound 40 (mkNode256 [(249, Node.leaf 10 20)]) [250] 0 = .ok 10 ∧
    endOp 40 (mkNode4 [(249, Node.leaf 10 20)]) = .ok 20 ∧
    endOp 40 (mkNode16 [(249, Node.leaf 10 20)]) = .ok 20 ∧
    endOp 40 (mkNode48 [(249, Node.leaf 10 20)]) = .ok 10 ∧
    endOp 40 (mkNode256 [(249, Node.leaf 10 20)]) = .ok 10 := by
  decide

/-- Claim C3 is violated by the code on the bulk built tree of the seventeen
single byte keys 239 to 255 with adjacent ranges of width ten: upper_bound of
the largest key correctly returns its range end 170, but the global end() of
the tree returns 160, the begin of the last range, because the root is a
Node48 whose end() descends through begin(); so the claimed equality of the
last range end with the global end() fails. -/
theorem c3_last_range_end_differs_from_global_end :
    upper_bound 60 (buildART 1 entries17) [255] 0 = .ok 170 ∧
    endOp 60 (buildART 1 entries17) = .ok 160 := by
  decide

/-- Claim C4 is violated by the code: in the bulk built tree of the keys
(1,5), (1,7), (2,0) with ranges 0 to 10, 10 to 20 and 20 to 30, the synthetic
key (1,255) lies strictly between the second and third stored keys, yet both
bounds dereference the null child of an unused sentinel slot of the depth one
Node4 instead of returning 20; an ordinary between keys query such as (1,6)
does return the next range begin 10. -/
theorem c4_between_keys_query_dereferences_null :
    lower_bound 60 (buildART 2 entries3) [1, 255] 0 = .nullderef ∧
    upper_bound 60 (buildART 2 entries3) [1, 255] 0 = .nullderef ∧
    lower_bound 60 (buildART 2 entries3) [1, 6] 0 = .ok 10 := by
  decide

set_option maxRecDepth 4000 in
/-- Claim C5 is violated by the code: on the well formed seventeen child
Node48 over leaves with adjacent ranges, begin() is 0 and upper_bound of the
largest key byte returns 170, but end() returns 160, so the query result 170
exceeds end() and the claimed ordering begin below result below end fails. -/
theorem c5_query_result_exceeds_end :
    beginOp 300 (mkNode48 pairs17) = .ok 0 ∧
    upper_bound 60 (mkNode48 pairs17) [255] 0 = .ok 170 ∧
    endOp 60 (mkNode48 pairs17) = .ok 160 := by
  decide

/-- Claim C6 is violated by the code: a Node4 with children only at partial
keys 4 and 6 (no child keyed 255) queried with byte 255 matches the sentinel
value 255 stored in the first unused slot before the co located child
reference is consulted and dereferences that absent child, instead of
resolving through the node's end(), which would be 30. -/
theorem c6_sentinel_slot_dereferenced :
    lower_bound 40 (mkNode4 [(4, Node.leaf 10 20), (6, Node.leaf 20 30)]) [255] 0
      = .nullderef ∧
    upper_bound 40 (mkNode16 [(4, Node.leaf 10 20), (6, Node.leaf 20 30)]) [255] 0
      = .nullderef ∧
    endOp 40 (mkNode4 [(4, Node.leaf 10 20), (6, Node.leaf 20 30)]) = .ok 30 := by
  decide

/-- Claim C7 is violated by the code: on a node holding zero children, only
Node4 end() raises the labeled invariant error; Node4 and Node16 begin()
dereference the absent first child, Node16 end() accesses index minus one of
the child array, and Node48 begin() and Node256 begin() never terminate, their
unsigned loop counter being unable to fail the loop condition. -/
theorem c7_empty_node_does_not_fail_loudly :
    beginOp 9 (mkNode4 []) = .nullderef ∧
    beginOp 9 (mkNode16 []) = .nullderef ∧
    endOp 9 (mkNode16 []) = .oob ∧
    endOp 9 (mkNode4 []) = .invariant "Empty _children array in Node4 should never happen" ∧
    (∀ fuel, beginOp fuel (mkNode48 []) = .timeout) ∧
    (∀ fuel, beginOp fuel (mkNode256 []) = .timeout) := by
  refine ⟨by decide, by decide, by decide, by decide, ?_, ?_⟩
  · exact begin48_empty
  · exact begin256_empty

/-- Claim C8 holds: building any of the four node shapes from any permutation
of the same child pairs with distinct partial key bytes yields identical
lower_bound, upper_bound, begin and end results for every query, at every
fuel; for Node4, Node16 and Node256 the constructed node state is even equal,
and for Node48 the differing compact slot assignment is unobservable because
every access is routed through the byte indexed slot array. -/
theorem c8_construction_order_irrelevant (l1 l2 : List (Nat × Node))
    (hp : l1.Perm l2) (hnd : (l1.map Prod.fst).Nodup)
    (hb : ∀ p ∈ l1, p.1 < 256) :
    (l1.length ≤ 4 → ∀ fuel key depth,
        lower_bound fuel (mkNode4 l1) key depth = lower_bound fuel (mkNode4 l2) key depth ∧
        upper_bound fuel (mkNode4 l1) key depth = upper_bound fuel (mkNode4 l2) key depth ∧
        beginOp fuel (mkNode4 l1) = beginOp fuel (mkNode4 l2) ∧
        endOp fuel (mkNode4 l1) = endOp fuel (mkNode4 l2)) ∧
    (l1.length ≤ 16 → ∀ fuel key depth,
        lower_bound fuel (mkNode16 l1) key depth = lower_bound fuel (mkNode16 l2) key depth ∧
        upper_bound fuel (mkNode16 l1) key depth = upper_bound fuel (mkNode16 l2) key depth ∧
        beginOp fuel (mkNode16 l1) = beginOp fuel (mkNode16 l2) ∧
        endOp fuel (mkNode16 l1) = endOp fuel (mkNode16 l2)) ∧
    (l1.length ≤ 48 → ∀ fuel key depth,
        lower_bound fuel (mkNode48 l1) key depth = lower_bound fuel (mkNode48 l2) key depth ∧
        upper_bound fuel (mkNode48 l1) key depth = upper_bound fuel (mkNode48 l2) key depth ∧
        beginOp fuel (mkNode48 l1) = beginOp fuel (mkNode48 l2) ∧
        endOp fuel (mkNode48 l1) = endOp fuel (mkNode48 l2)) ∧
    (∀ fuel key depth,
        lower_bound fuel (mkNode256 l1) key depth = lower_bound fuel (mkNode256 l2) key depth ∧
        upper_bound fuel (mkNode256 l1) key depth = upper_bound fuel (mkNode256 l2) key depth ∧
        beginOp fuel (mkNode256 l1) = beginOp fuel (mkNode256 l2) ∧
        endOp fuel (mkNode256 l1) = endOp fuel (mkNode256 l2)) := by
  have h4 : mkNode4 l1 = mkNode4 l2 := mkNode4_eq_of_perm l1 l2 hp hnd
  have h16 : mkNode16 l1 = mkNode16 l2 := mkNode16_eq_of_perm l1 l2 hp hnd
  have h256 : mkNode256 l1 = mkNode256 l2 := mkNode256_eq_of_perm l1 l2 hp hnd hb
  refine ⟨?_, ?_, ?_, ?_⟩
  · intro _ fuel key depth
    rw [h4]
    exact ⟨rfl, rfl, rfl, rfl⟩
  · intro _ fuel key depth
    rw [h16]
    exact ⟨rfl, rfl, rfl, rfl⟩
  · intro hlen fuel key depth
    exact ⟨interp_rel48 l1 l2 hp hnd hb hlen fuel _ _ (Rel48.run (.query .lower key depth)),
      interp_rel48 l1 l2 hp hnd hb hlen fuel _ _ (Rel48.run (.query .upper key depth)),
      interp_rel48 l1 l2 hp hnd hb hlen fuel _ _ (Rel48.run .bmode),
      interp_rel48 l1 l2 hp hnd hb hlen fuel _ _ (Rel48.run .emode)⟩
  · intro fuel key depth
    rw [h256]
    exact ⟨rfl, rfl, rfl, rfl⟩

/-- Witness for claim C8: the theorem applied to a concrete two child set and
its reversal, projected to the Node48 lower_bound equality at fuel 9 for a
query byte above both keys. -/
theorem c8_construction_order_irrelevant_witness :
    lower_bound 9 (mkNode48 [(1, Node.leaf 3 4), (2, Node.leaf 4 7)]) [2] 0
      = lower_bound 9 (mkNode48 [(2, Node.leaf 4 7), (1, Node.leaf 3 4)]) [2] 0 :=
  ((c8_construction_order_irrelevant
      [(1, Node.leaf 3 4), (2, Node.leaf 4 7)]
      [(2, Node.leaf 4 7), (1, Node.leaf 3 4)]
      (List.Perm.swap (2, Node.leaf 4 7) (1, Node.leaf 3 4) [])
      (by decide) (by decide)).2.2.1 (by decide) 9 [2] 0).1

/-- Claim C9 is violated by the code: the backward scan of Node256 end() never
terminates on a node with zero live children, whatever the fuel, because the
unsigned loop counter wraps from 0 back to 255 instead of exiting, so the
labeled invariant error after the loop is unreachable. -/
theorem c9_node256_end_loops_forever :
    ∀ fuel, endOp fuel (mkNode256 []) = .timeout := by
  intro fuel
  cases fuel with
  | zero => rfl
  | succ f => exact cyc256e_empty f 255

/-- Claim C10 is violated by the code: on a full Node16 whose sixteen partial
keys 0 to 15 are all smaller than the query byte 100, the search dereferences
the lower bound iterator at position 16, one past the partial key array,
before the out of range case is checked; and end() on the same full node,
which has no child keyed 255, reads the child array at index 16. -/
theorem c10_node16_reads_past_end :
    lower_bound 60 (mkNode16 pairs16) [100] 0 = .oob ∧
    upper_bound 60 (mkNode16 pairs16) [100] 0 = .oob ∧
    endOp 60 (mkNode16 pairs16) = .oob := by
  decide

end ART
